import Mathlib

/-! Shallow embedding of the elo repository (src/lib.rs, src/elo.rs,
src/async_elo.rs): a two-player Elo rating engine over a name-keyed player
store. Machine integers (usize) are modelled as Nat; the f64 arithmetic of
the rating computation is modelled as exact real arithmetic (every rounding
decision proved below has margin far wider than f64 rounding error), and
`f64::round` followed by the saturating cast `as usize` is modelled by
`roundRust` followed by `Int.toNat`. -/

/-- src/lib.rs `Player`: name, rating and number_of_games (usize as Nat). -/
structure Player where
  name : String
  rating : Nat
  number_of_games : Nat
deriving DecidableEq

/-- The `HashMap<String, Player>` backing store, as a partial map from
names to records. -/
def Store : Type := String → Option Player

/-- `HashMap::new()`: the empty store. -/
def Store.empty : Store := fun _ => none

/-- `HashMap::insert(key, player)`: upsert at `key`. -/
def Store.insertAt (s : Store) (key : String) (p : Player) : Store :=
  fun n => if n = key then some p else s n

/-- `EloStorage::add_player` for `HashMap` (src/lib.rs 78-80): insert keyed
by `player.name`. -/
def Store.add_player (s : Store) (p : Player) : Store := s.insertAt p.name p

/-- `EloStorage::update_player` for `HashMap` (src/lib.rs 82-84, identical in
src/elo.rs 104-106 and in the async `InMemoryStorage`, src/async_elo.rs
136-141): insert keyed by `player.name()`, an upsert. -/
def Store.update_player (s : Store) (p : Player) : Store := s.insertAt p.name p

/-- `EloStorage::get`. -/
def Store.get (s : Store) (n : String) : Option Player := s n

/-- src/lib.rs `Elo`: a store plus the starting rating (1000 in `Elo::new`). -/
structure Elo where
  players : Store
  starting_elo : Nat

/-- `Elo::new` (src/lib.rs 107-113): starting_elo is 1000. -/
def Elo.new (players : Store) : Elo := ⟨players, 1000⟩

/-- `Elo::add_player` (src/lib.rs 115-121): unconditionally inserts a fresh
record with the starting rating and 0 games. -/
def Elo.add_player (e : Elo) (name : String) : Elo :=
  { e with players := e.players.add_player ⟨name, e.starting_elo, 0⟩ }

/-- `Elo::try_add` (src/lib.rs 123-127): add only when absent. -/
def Elo.try_add (e : Elo) (name : String) : Elo :=
  match e.players.get name with
  | none => e.add_player name
  | some _ => e

/-- `Elo::get_player` (src/lib.rs 166-168). -/
def Elo.get_player (e : Elo) (name : String) : Option Player :=
  e.players.get name

/-- `f64::round`: round half away from zero, on the real model. -/
noncomputable def roundRust (x : ℝ) : ℤ :=
  if 0 ≤ x then ⌊x + 1 / 2⌋ else -⌊-x + 1 / 2⌋

/-- The expected score of the player rated `r` against the player rated
`other`: `1.0 / (1.0 + 10.0f64.powf((other - r) as f64 / 400.0))`
(src/lib.rs 144-147; the usize ratings are subtracted `as isize`). -/
noncomputable def expectedScore (r other : Nat) : ℝ :=
  1 / (1 + (10 : ℝ) ^ ((((other : ℤ) - (r : ℤ) : ℤ) : ℝ) / 400))

/-- `let factor = if is_draw { 0.5 } else { 0.0 }` (src/lib.rs 149). -/
noncomputable def factor (is_draw : Bool) : ℝ := if is_draw then 0.5 else 0

/-- `winner_new_rating = w.rating() as f64 + 32.0 * (1.0 - factor - winner_expected)`
(src/lib.rs 151), `w` rated `w`, `l` rated `l`. -/
noncomputable def winnerNewRating (w l : Nat) (is_draw : Bool) : ℝ :=
  (w : ℝ) + 32 * (1 - factor is_draw - expectedScore w l)

/-- `loser_new_rating = l.rating() as f64 + 32.0 * (factor - loser_expected)`
(src/lib.rs 152). -/
noncomputable def loserNewRating (w l : Nat) (is_draw : Bool) : ℝ :=
  (l : ℝ) + 32 * (factor is_draw - expectedScore l w)

/-- The `update_rating` closure of `Elo::add_game` (src/lib.rs 154-158):
`self.players.get_mut(player).unwrap()`, then in place at that key set
`rating = new_rating.round() as usize` (a saturating cast) and
`number_of_games += 1`. On a store where the key is absent the Rust code
panics; the model leaves the store unchanged (both call sites guarantee
presence after `try_add`). -/
noncomputable def applyUpdate (s : Store) (player : String) (new_rating : ℝ) : Store :=
  match s.get player with
  | some p => s.insertAt player
      { p with rating := (roundRust new_rating).toNat,
               number_of_games := p.number_of_games + 1 }
  | none => s

/-- `Elo::add_game` (src/lib.rs 131-164). Returns the `Result<(), String>`
together with the mutated engine (`&mut self`). `self[player1]` unwraps
`get`; after the two `try_add` calls both lookups succeed, and the model
returns the state unchanged on the unreachable `none` branches. -/
noncomputable def Elo.add_game (e : Elo) (player1 player2 : String) (is_draw : Bool) :
    Except String Unit × Elo :=
  if player1 = player2 then
    (Except.error (player1 ++ " can't play against themselves (you friendless loser)"), e)
  else
    let e1 := (e.try_add player1).try_add player2
    match e1.players.get player1, e1.players.get player2 with
    | some w, some l =>
        let s1 := applyUpdate e1.players player1
          (winnerNewRating w.rating l.rating is_draw)
        let s2 := applyUpdate s1 player2
          (loserNewRating w.rating l.rating is_draw)
        (Except.ok (), { e1 with players := s2 })
    | _, _ => (Except.ok (), e1)

/-- Rust `Ord::cmp` on a linearly ordered type (usize; String, where Lean's
linear order on `String` is lexicographic like the Rust byte order). -/
def cmpOf {α : Type} [LinearOrder α] (a b : α) : Ordering :=
  if a < b then Ordering.lt else if b < a then Ordering.gt else Ordering.eq

/-- `PartialOrd`/`Ord` for `Player` (src/lib.rs 35-53): rating compared and
`reverse`d (descending), ties broken by number_of_games descending, then by
name ascending. -/
def Player.cmp (p q : Player) : Ordering :=
  match (cmpOf p.rating q.rating).swap with
  | Ordering.eq =>
      match (cmpOf p.number_of_games q.number_of_games).swap with
      | Ordering.eq => cmpOf p.name q.name
      | o => o
  | o => o

/-- Modelled from the spec: the shared Rating Engine function
`crate::update_rating` called from src/elo.rs 60 and src/async_elo.rs 74 is
not among the provided source files. Spec section 4.1 defines it: expected
scores `E_a = 1 / (1 + 10 ^ ((R_b - R_a) / 400))` and symmetrically `E_b`;
actual scores (1, 0) for a decisive outcome favoring the first player and
(0.5, 0.5) for a draw; `new_R = R + 32 * (actual - expected)`, rounded to
nearest integer and stored in the usize rating field (saturating cast). -/
noncomputable def update_rating (p1 p2 : Player) (is_draw : Bool) : Nat × Nat :=
  ((roundRust ((p1.rating : ℝ) + 32 * ((if is_draw then 0.5 else 1) -
      1 / (1 + (10 : ℝ) ^ ((((p2.rating : ℤ) - (p1.rating : ℤ) : ℤ) : ℝ) / 400))))).toNat,
   (roundRust ((p2.rating : ℝ) + 32 * ((if is_draw then 0.5 else 0) -
      1 / (1 + (10 : ℝ) ^ ((((p1.rating : ℤ) - (p2.rating : ℤ) : ℤ) : ℝ) / 400))))).toNat)

/-- `AsyncElo::add_game` (src/async_elo.rs 55-86) executed without
interleaving over the `InMemoryStorage` map: fetch copies of both players
after the two `try_add` calls (src/async_elo.rs 46-50, same logic as the
synchronous `try_add`), compute `crate::update_rating`, set both copies'
fields, then write both back with `update_player` (insert keyed by the
record's own name). -/
noncomputable def AsyncElo.add_game (e : Elo) (player1 player2 : String) (is_draw : Bool) :
    Except String Unit × Elo :=
  if player1 = player2 then
    (Except.error (player1 ++ " can't play against themselves (you friendless loser)"), e)
  else
    let e1 := (e.try_add player1).try_add player2
    match e1.players.get player1, e1.players.get player2 with
    | some q1, some q2 =>
        let wr := (update_rating q1 q2 is_draw).1
        let lr := (update_rating q1 q2 is_draw).2
        let q1n := { q1 with rating := wr, number_of_games := q1.number_of_games + 1 }
        let q2n := { q2 with rating := lr, number_of_games := q2.number_of_games + 1 }
        (Except.ok (), { e1 with players :=
          (Store.update_player (Store.update_player e1.players q1n) q2n) })
    | _, _ => (Except.ok (), e1)

/-- The public operations of the synchronous engine that a caller can run
in sequence (`get_player` reads only). -/
inductive Op where
  | tryAdd (name : String) : Op
  | addGame (player1 player2 : String) (is_draw : Bool) : Op
  | getPlayer (name : String) : Op

/-- One public operation applied to the engine state. -/
noncomputable def Op.step (e : Elo) : Op → Elo
  | Op.tryAdd n => e.try_add n
  | Op.addGame a b d => (e.add_game a b d).2
  | Op.getPlayer _ => e

/-- A sequence of public operations, run left to right. -/
noncomputable def runOps (e : Elo) (ops : List Op) : Elo :=
  ops.foldl Op.step e

/-- The games counter of the named player, 0 when absent. -/
def gamesOf (e : Elo) (n : String) : Nat :=
  ((e.players.get n).map Player.number_of_games).getD 0

theorem Store.get_insertAt (s : Store) (k : String) (p : Player) (n : String) :
    (s.insertAt k p).get n = if n = k then some p else s.get n := rfl

theorem Elo.try_add_present (e : Elo) (n : String) (p : Player)
    (h : e.players.get n = some p) : e.try_add n = e := by
  simp only [Elo.try_add, h]

theorem Elo.try_add_absent (e : Elo) (n : String)
    (h : e.players.get n = none) :
    e.try_add n = { e with players := e.players.insertAt n ⟨n, e.starting_elo, 0⟩ } := by
  simp only [Elo.try_add, h, Elo.add_player, Store.add_player]

theorem Elo.try_add_get_isSome (e : Elo) (n : String) :
    ∃ p, (e.try_add n).players.get n = some p := by
  cases h : e.players.get n with
  | none =>
      refine ⟨⟨n, e.starting_elo, 0⟩, ?_⟩
      rw [Elo.try_add_absent e n h]
      simp [Store.get_insertAt]
  | some p =>
      refine ⟨p, ?_⟩
      rw [Elo.try_add_present e n p h]
      exact h

theorem Elo.try_add_get_other (e : Elo) (n m : String) (h : m ≠ n) :
    (e.try_add n).players.get m = e.players.get m := by
  cases hg : e.players.get n with
  | none => rw [Elo.try_add_absent e n hg]; simp [Store.get_insertAt, h]
  | some p => rw [Elo.try_add_present e n p hg]

theorem Elo.try_add_starting (e : Elo) (n : String) :
    (e.try_add n).starting_elo = e.starting_elo := by
  cases hg : e.players.get n with
  | none => rw [Elo.try_add_absent e n hg]
  | some p => rw [Elo.try_add_present e n p hg]

theorem applyUpdate_eq (s : Store) (k : String) (p : Player) (v : ℝ)
    (h : s.get k = some p) :
    applyUpdate s k v = s.insertAt k
      { p with rating := (roundRust v).toNat,
               number_of_games := p.number_of_games + 1 } := by
  simp only [applyUpdate, h]

theorem expectedScore_pos (r o : Nat) : 0 < expectedScore r o := by
  unfold expectedScore
  positivity

theorem expectedScore_lt_one (r o : Nat) : expectedScore r o < 1 := by
  unfold expectedScore
  have h : (0:ℝ) < (10 : ℝ) ^ ((((o : ℤ) - (r : ℤ) : ℤ) : ℝ) / 400) :=
    Real.rpow_pos_of_pos (by norm_num) _
  rw [div_lt_one (by linarith)]
  linarith

theorem expectedScore_add (r1 r2 : Nat) :
    expectedScore r1 r2 + expectedScore r2 r1 = 1 := by
  unfold expectedScore
  have hx2 : (((r1 : ℤ) - (r2 : ℤ) : ℤ) : ℝ) / 400 =
      -((((r2 : ℤ) - (r1 : ℤ) : ℤ) : ℝ) / 400) := by
    push_cast
    ring
  rw [hx2, Real.rpow_neg (by norm_num : (0:ℝ) ≤ 10)]
  have ht : (0:ℝ) < (10:ℝ) ^ ((((r2 : ℤ) - (r1 : ℤ) : ℤ) : ℝ) / 400) :=
    Real.rpow_pos_of_pos (by norm_num) _
  have ht1 : (1:ℝ) + (10:ℝ) ^ ((((r2 : ℤ) - (r1 : ℤ) : ℤ) : ℝ) / 400) ≠ 0 := by positivity
  field_simp
  ring

theorem expectedScore_same (r : Nat) : expectedScore r r = 1 / 2 := by
  unfold expectedScore
  rw [sub_self]
  norm_num [Real.rpow_zero]

theorem roundRust_nonneg (x : ℝ) (h : 0 ≤ x) : 0 ≤ roundRust x := by
  unfold roundRust
  rw [if_pos h]
  exact Int.floor_nonneg.mpr (by linarith)

theorem roundRust_eq (x : ℝ) (n : ℤ) (h0 : 0 ≤ x)
    (h1 : (n : ℝ) ≤ x + 1 / 2) (h2 : x + 1 / 2 < n + 1) : roundRust x = n := by
  unfold roundRust
  rw [if_pos h0]
  exact Int.floor_eq_iff.mpr ⟨h1, h2⟩

theorem roundRust_natCast (n : Nat) : roundRust (n : ℝ) = n := by
  refine roundRust_eq _ _ (by positivity) ?_ ?_
  · push_cast
    linarith
  · push_cast
    linarith

theorem roundRust_abs (x : ℝ) : |((roundRust x : ℤ) : ℝ) - x| ≤ 1 / 2 := by
  unfold roundRust
  rcases le_or_lt 0 x with h | h
  · rw [if_pos h]
    have h1 : (⌊x + 1/2⌋ : ℝ) ≤ x + 1/2 := Int.floor_le _
    have h2 : x + 1/2 - 1 < (⌊x + 1/2⌋ : ℝ) := Int.sub_one_lt_floor _
    rw [abs_le]
    constructor <;> linarith
  · rw [if_neg (not_le.mpr h)]
    have h1 : (⌊-x + 1/2⌋ : ℝ) ≤ -x + 1/2 := Int.floor_le _
    have h2 : -x + 1/2 - 1 < (⌊-x + 1/2⌋ : ℝ) := Int.sub_one_lt_floor _
    rw [abs_le]
    push_cast
    constructor <;> linarith

/-- `Elo::add_game` on a state where both (distinct) players are present:
the `Ok` result and the two records updated in place. -/
theorem Elo.add_game_eq (e : Elo) (a b : String) (d : Bool) (pa pb : Player)
    (hab : a ≠ b) (ha : e.players.get a = some pa) (hb : e.players.get b = some pb) :
    e.add_game a b d = (Except.ok (), Elo.mk (fun n =>
      if n = b then
        some ⟨pb.name, (roundRust (loserNewRating pa.rating pb.rating d)).toNat,
          pb.number_of_games + 1⟩
      else if n = a then
        some ⟨pa.name, (roundRust (winnerNewRating pa.rating pb.rating d)).toNat,
          pa.number_of_games + 1⟩
      else e.players.get n) e.starting_elo) := by
  have h1 : e.try_add a = e := Elo.try_add_present e a pa ha
  have h2 : e.try_add b = e := Elo.try_add_present e b pb hb
  have hba : (e.players.insertAt a
      { pa with rating := (roundRust (winnerNewRating pa.rating pb.rating d)).toNat,
                number_of_games := pa.number_of_games + 1 }).get b = some pb := by
    rw [Store.get_insertAt, if_neg (Ne.symm hab)]
    exact hb
  simp only [Elo.add_game, if_neg hab, h1, h2, ha, hb]
  rw [applyUpdate_eq e.players a pa _ ha]
  rw [applyUpdate_eq _ b pb _ hba]
  rfl

/-- The rating observable of the named player, 0 when absent. -/
def ratingOf (e : Elo) (n : String) : Nat :=
  ((e.players.get n).map Player.rating).getD 0

/-- Pointwise form of `Elo.add_game_eq`: what any lookup returns afterwards. -/
theorem Elo.add_game_get (e : Elo) (a b : String) (d : Bool) (pa pb : Player)
    (hab : a ≠ b) (ha : e.players.get a = some pa) (hb : e.players.get b = some pb)
    (n : String) :
    (e.add_game a b d).2.players.get n =
      (if n = b then
        some ⟨pb.name, (roundRust (loserNewRating pa.rating pb.rating d)).toNat,
          pb.number_of_games + 1⟩
      else if n = a then
        some ⟨pa.name, (roundRust (winnerNewRating pa.rating pb.rating d)).toNat,
          pa.number_of_games + 1⟩
      else e.players.get n) := by
  rw [Elo.add_game_eq e a b d pa pb hab ha hb]
  rfl

/-- `add_game` on a state with both players present reports success. -/
theorem Elo.add_game_ok (e : Elo) (a b : String) (d : Bool) (pa pb : Player)
    (hab : a ≠ b) (ha : e.players.get a = some pa) (hb : e.players.get b = some pb) :
    (e.add_game a b d).1 = Except.ok () := by
  rw [Elo.add_game_eq e a b d pa pb hab ha hb]

/-- `add_game` factors through the two auto-registrations: running it on `e`
is running it on the state after both `try_add` calls. -/
theorem Elo.add_game_via (e : Elo) (a b : String) (d : Bool) (hab : a ≠ b) :
    e.add_game a b d = ((e.try_add a).try_add b).add_game a b d := by
  obtain ⟨pb, hpb⟩ := Elo.try_add_get_isSome (e.try_add a) b
  obtain ⟨pa0, hpa0⟩ := Elo.try_add_get_isSome e a
  have hpa : ((e.try_add a).try_add b).players.get a = some pa0 := by
    rw [Elo.try_add_get_other _ b a hab]
    exact hpa0
  have h1 : ((e.try_add a).try_add b).try_add a = (e.try_add a).try_add b :=
    Elo.try_add_present _ a pa0 hpa
  have h2 : ((e.try_add a).try_add b).try_add b = (e.try_add a).try_add b :=
    Elo.try_add_present _ b pb hpb
  unfold Elo.add_game
  rw [if_neg hab, if_neg hab, h1, h2]

/-- C2: for every state, every name x (present or not) and every outcome,
`add_game(x, x, outcome)` — in both the synchronous and the asynchronous
variant — returns the self-play error naming x and leaves the store
completely unchanged: no player is created, no rating or games counter is
mutated. -/
theorem C2_self_play_rejected (e : Elo) (x : String) (o : Bool) :
    Elo.add_game e x x o =
      (Except.error (x ++ " can't play against themselves (you friendless loser)"), e) ∧
    AsyncElo.add_game e x x o =
      (Except.error (x ++ " can't play against themselves (you friendless loser)"), e) := by
  constructor
  · unfold Elo.add_game
    rw [if_pos rfl]
  · unfold AsyncElo.add_game
    rw [if_pos rfl]

/-- C9: `update_player` is a total upsert: for every store and every player
record, the update succeeds, afterwards looking up `p.name` returns exactly
`p` whether or not a record with that name previously existed, and no other
name is affected. -/
theorem C9_update_player_upsert (s : Store) (p : Player) :
    (s.update_player p).get p.name = some p ∧
    ∀ n, n ≠ p.name → (s.update_player p).get n = s.get n := by
  constructor
  · rw [Store.update_player, Store.get_insertAt, if_pos rfl]
  · intro n hn
    rw [Store.update_player, Store.get_insertAt, if_neg hn]

theorem winnerNewRating_draw_same (R : Nat) : winnerNewRating R R true = (R : ℝ) := by
  unfold winnerNewRating factor
  rw [expectedScore_same]
  norm_num

theorem loserNewRating_draw_same (R : Nat) : loserNewRating R R true = (R : ℝ) := by
  unfold loserNewRating factor
  rw [expectedScore_same]
  norm_num

theorem toNat_roundRust_natCast (n : Nat) : (roundRust ((n : Nat) : ℝ)).toNat = n := by
  rw [roundRust_natCast]
  exact Int.toNat_natCast n

/-- C7: a draw between two distinct existing players with the same rating R
leaves both ratings equal to R and increments both games counters by 1. -/
theorem C7_draw_same_rating (e : Elo) (a b : String) (pa pb : Player) (R : Nat)
    (hab : a ≠ b) (ha : e.players.get a = some pa) (hb : e.players.get b = some pb)
    (hra : pa.rating = R) (hrb : pb.rating = R) :
    ratingOf (e.add_game a b true).2 a = R ∧
    ratingOf (e.add_game a b true).2 b = R ∧
    gamesOf (e.add_game a b true).2 a = pa.number_of_games + 1 ∧
    gamesOf (e.add_game a b true).2 b = pb.number_of_games + 1 := by
  have hg := Elo.add_game_get e a b true pa pb hab ha hb
  refine ⟨?_, ?_, ?_, ?_⟩
  · rw [ratingOf, hg a, if_neg hab, if_pos rfl]
    simp [hra, hrb, winnerNewRating_draw_same, toNat_roundRust_natCast]
  · rw [ratingOf, hg b, if_pos rfl]
    simp [hra, hrb, loserNewRating_draw_same, toNat_roundRust_natCast]
  · rw [gamesOf, hg a, if_neg hab, if_pos rfl]
    rfl
  · rw [gamesOf, hg b, if_pos rfl]
    rfl

/-- Witness for C7 at a concrete input: two players rated 7. -/
theorem C7_draw_same_rating_witness :
    ratingOf ((Elo.mk (fun n => if n = "a" then some ⟨"a", 7, 0⟩
        else if n = "b" then some ⟨"b", 7, 4⟩ else none) 1000).add_game "a" "b" true).2 "a" = 7 ∧
    ratingOf ((Elo.mk (fun n => if n = "a" then some ⟨"a", 7, 0⟩
        else if n = "b" then some ⟨"b", 7, 4⟩ else none) 1000).add_game "a" "b" true).2 "b" = 7 ∧
    gamesOf ((Elo.mk (fun n => if n = "a" then some ⟨"a", 7, 0⟩
        else if n = "b" then some ⟨"b", 7, 4⟩ else none) 1000).add_game "a" "b" true).2 "a" = 0 + 1 ∧
    gamesOf ((Elo.mk (fun n => if n = "a" then some ⟨"a", 7, 0⟩
        else if n = "b" then some ⟨"b", 7, 4⟩ else none) 1000).add_game "a" "b" true).2 "b" = 4 + 1 :=
  C7_draw_same_rating _ "a" "b" ⟨"a", 7, 0⟩ ⟨"b", 7, 4⟩ 7 (by decide) rfl rfl rfl rfl

/-- A concrete two-player state: "a" rated 400, "b" rated 0. -/
def eloC1 : Elo :=
  Elo.mk (fun n => if n = "a" then some ⟨"a", 400, 0⟩
    else if n = "b" then some ⟨"b", 0, 0⟩ else none) 1000

theorem roundRust_eq_neg (x : ℝ) (n : ℤ) (h0 : ¬ 0 ≤ x)
    (h1 : (n : ℝ) ≤ -x + 1 / 2) (h2 : -x + 1 / 2 < n + 1) : roundRust x = -n := by
  unfold roundRust
  rw [if_neg h0, Int.floor_eq_iff.mpr ⟨h1, h2⟩]

theorem expectedScore_0_400 : expectedScore 0 400 = 1 / 11 := by
  unfold expectedScore
  rw [show ((((400 : Nat) : ℤ) - ((0 : Nat) : ℤ) : ℤ) : ℝ) / 400 = 1 by norm_num]
  rw [Real.rpow_one]
  norm_num

theorem loserNewRating_400_0 : loserNewRating 400 0 false = -32 / 11 := by
  unfold loserNewRating factor
  rw [expectedScore_0_400]
  norm_num

theorem roundRust_loser_400_0 : roundRust (loserNewRating 400 0 false) = -3 := by
  rw [loserNewRating_400_0]
  exact roundRust_eq_neg _ 3 (by norm_num) (by norm_num) (by norm_num)

/-- C1 counterexample: with existing ratings 400 (winner) and 0 (loser) and
a decisive outcome, the computed new loser rating is negative and rounds to
-3, yet the stored rating is 0: the `as usize` cast saturates, so a computed
rating below zero is NOT stored as a negative rating. -/
theorem C1_counterexample :
    loserNewRating 400 0 false < 0 ∧
    roundRust (loserNewRating 400 0 false) = -3 ∧
    ratingOf (eloC1.add_game "a" "b" false).2 "b"
      = 0 := by
  refine ⟨?_, roundRust_loser_400_0, ?_⟩
  · rw [loserNewRating_400_0]
    norm_num
  · rw [ratingOf, Elo.add_game_get eloC1 "a" "b" false ⟨"a", 400, 0⟩ ⟨"b", 0, 0⟩
      (by decide) rfl rfl "b", if_pos rfl]
    simp [roundRust_loser_400_0]

/-- C1 amended: the stored new ratings of `add_game` are the `Int.toNat` of
the rounded computed values — there is no ceiling and no floor other than
the saturation of the `as usize` cast at zero, which stores any negative
computed rating as 0. -/
theorem C1_saturating_cast (e : Elo) (a b : String) (d : Bool) (pa pb : Player)
    (hab : a ≠ b) (ha : e.players.get a = some pa) (hb : e.players.get b = some pb) :
    ratingOf (e.add_game a b d).2 a =
      (roundRust (winnerNewRating pa.rating pb.rating d)).toNat ∧
    ratingOf (e.add_game a b d).2 b =
      (roundRust (loserNewRating pa.rating pb.rating d)).toNat ∧
    (roundRust (loserNewRating pa.rating pb.rating d) < 0 →
      ratingOf (e.add_game a b d).2 b = 0) := by
  have hg := Elo.add_game_get e a b d pa pb hab ha hb
  have h1 : ratingOf (e.add_game a b d).2 a =
      (roundRust (winnerNewRating pa.rating pb.rating d)).toNat := by
    rw [ratingOf, hg a, if_neg hab, if_pos rfl]
    rfl
  have h2 : ratingOf (e.add_game a b d).2 b =
      (roundRust (loserNewRating pa.rating pb.rating d)).toNat := by
    rw [ratingOf, hg b, if_pos rfl]
    rfl
  refine ⟨h1, h2, fun hneg => ?_⟩
  rw [h2]
  exact Int.toNat_of_nonpos (le_of_lt hneg)

/-- Witness for C1 amended at the 400-versus-0 decisive input. -/
theorem C1_saturating_cast_witness :
    ratingOf (eloC1.add_game "a" "b" false).2 "a"
      = (roundRust (winnerNewRating 400 0 false)).toNat ∧
    ratingOf (eloC1.add_game "a" "b" false).2 "b"
      = (roundRust (loserNewRating 400 0 false)).toNat ∧
    (roundRust (loserNewRating 400 0 false) < 0 →
      ratingOf (eloC1.add_game "a" "b" false).2 "b"
      = 0) :=
  C1_saturating_cast eloC1 "a" "b" false ⟨"a", 400, 0⟩ ⟨"b", 0, 0⟩ (by decide) rfl rfl

theorem expectedScore_400_0 : expectedScore 400 0 = 10 / 11 := by
  unfold expectedScore
  rw [show ((((0 : Nat) : ℤ) - ((400 : Nat) : ℤ) : ℤ) : ℝ) / 400 = -1 by norm_num]
  rw [show (-1 : ℝ) = -(1 : ℝ) by norm_num, Real.rpow_neg (by norm_num), Real.rpow_one]
  norm_num

theorem winnerNewRating_400_0 : winnerNewRating 400 0 false = 400 + 32 / 11 := by
  unfold winnerNewRating factor
  rw [expectedScore_400_0]
  norm_num

theorem roundRust_winner_400_0 : roundRust (winnerNewRating 400 0 false) = 403 := by
  rw [winnerNewRating_400_0]
  exact roundRust_eq _ 403 (by norm_num) (by norm_num) (by norm_num)

/-- C4 counterexample: with existing ratings (400, 0) and a decisive outcome
favoring the first player, the stored new ratings are 403 and 0 (the loser
side saturates at zero), and 403 + 0 differs from 400 + 0 by 3 > 1: the
zero-sum-within-1 property fails as stated. -/
theorem C4_counterexample :
    ratingOf (eloC1.add_game "a" "b" false).2 "a" = 403 ∧
    ratingOf (eloC1.add_game "a" "b" false).2 "b" = 0 ∧
    ¬(|(403 : ℤ) + 0 - 400 - 0| ≤ 1) := by
  have hg := Elo.add_game_get eloC1 "a" "b" false ⟨"a", 400, 0⟩ ⟨"b", 0, 0⟩
    (by decide) rfl rfl
  refine ⟨?_, ?_, by decide⟩
  · rw [ratingOf, hg "a", if_neg (by decide), if_pos rfl]
    simp [roundRust_winner_400_0]
  · rw [ratingOf, hg "b", if_pos rfl]
    simp [roundRust_loser_400_0]

theorem zero_sum_core (Ra Rb : Nat) (h : 32 ≤ Rb) :
    |((roundRust (winnerNewRating Ra Rb false)).toNat : ℤ) +
      ((roundRust (loserNewRating Ra Rb false)).toNat : ℤ) - (Ra : ℤ) - (Rb : ℤ)| ≤ 1 := by
  have hEa1 : expectedScore Ra Rb < 1 := expectedScore_lt_one Ra Rb
  have hEb1 : expectedScore Rb Ra < 1 := expectedScore_lt_one Rb Ra
  have hsum : expectedScore Ra Rb + expectedScore Rb Ra = 1 := expectedScore_add Ra Rb
  have hx : winnerNewRating Ra Rb false = (Ra : ℝ) + 32 * (1 - expectedScore Ra Rb) := by
    unfold winnerNewRating factor
    norm_num
  have hy : loserNewRating Ra Rb false = (Rb : ℝ) - 32 * expectedScore Rb Ra := by
    unfold loserNewRating factor
    simp
    ring
  have hRa0 : (0 : ℝ) ≤ (Ra : ℝ) := Nat.cast_nonneg Ra
  have hRb32 : (32 : ℝ) ≤ (Rb : ℝ) := by exact_mod_cast h
  have hx0 : 0 ≤ winnerNewRating Ra Rb false := by
    rw [hx]
    linarith
  have hy0 : 0 ≤ loserNewRating Ra Rb false := by
    rw [hy]
    linarith
  have hrx := roundRust_abs (winnerNewRating Ra Rb false)
  have hry := roundRust_abs (loserNewRating Ra Rb false)
  rw [abs_le] at hrx hry
  have hnx := roundRust_nonneg _ hx0
  have hny := roundRust_nonneg _ hy0
  rw [Int.toNat_of_nonneg hnx, Int.toNat_of_nonneg hny]
  have hxy : winnerNewRating Ra Rb false + loserNewRating Ra Rb false
      = (Ra : ℝ) + (Rb : ℝ) := by
    rw [hx, hy]
    linarith
  rw [abs_le]
  constructor
  · have hr : (-1 : ℝ) ≤ ((roundRust (winnerNewRating Ra Rb false) : ℤ) : ℝ) +
        ((roundRust (loserNewRating Ra Rb false) : ℤ) : ℝ) - (Ra : ℝ) - (Rb : ℝ) := by
      linarith
    exact_mod_cast hr
  · have hr : ((roundRust (winnerNewRating Ra Rb false) : ℤ) : ℝ) +
        ((roundRust (loserNewRating Ra Rb false) : ℤ) : ℝ) - (Ra : ℝ) - (Rb : ℝ) ≤ 1 := by
      linarith
    exact_mod_cast hr

/-- C4 amended: for two distinct existing players and a decisive outcome
favoring the first, the stored new ratings satisfy the zero-sum property up
to 1 provided the loser's rating is at least the K-factor 32 (so that the
saturating `as usize` cast cannot clamp the loser's computed new rating at
zero). -/
theorem C4_zero_sum (e : Elo) (a b : String) (pa pb : Player)
    (hab : a ≠ b) (ha : e.players.get a = some pa) (hb : e.players.get b = some pb)
    (hsat : 32 ≤ pb.rating) :
    |(ratingOf (e.add_game a b false).2 a : ℤ) +
      (ratingOf (e.add_game a b false).2 b : ℤ) -
      (pa.rating : ℤ) - (pb.rating : ℤ)| ≤ 1 := by
  have hg := Elo.add_game_get e a b false pa pb hab ha hb
  have h1 : ratingOf (e.add_game a b false).2 a =
      (roundRust (winnerNewRating pa.rating pb.rating false)).toNat := by
    rw [ratingOf, hg a, if_neg hab, if_pos rfl]
    rfl
  have h2 : ratingOf (e.add_game a b false).2 b =
      (roundRust (loserNewRating pa.rating pb.rating false)).toNat := by
    rw [ratingOf, hg b, if_pos rfl]
    rfl
  rw [h1, h2]
  exact zero_sum_core pa.rating pb.rating hsat

/-- Witness for C4 amended at two fresh players rated 1000. -/
theorem C4_zero_sum_witness :
    |(ratingOf ((Elo.mk (fun n => if n = "a" then some ⟨"a", 1000, 0⟩
        else if n = "b" then some ⟨"b", 1000, 0⟩ else none) 1000).add_game "a" "b" false).2 "a" : ℤ) +
      (ratingOf ((Elo.mk (fun n => if n = "a" then some ⟨"a", 1000, 0⟩
        else if n = "b" then some ⟨"b", 1000, 0⟩ else none) 1000).add_game "a" "b" false).2 "b" : ℤ) -
      ((1000 : Nat) : ℤ) - ((1000 : Nat) : ℤ)| ≤ 1 :=
  C4_zero_sum _ "a" "b" ⟨"a", 1000, 0⟩ ⟨"b", 1000, 0⟩ (by decide) rfl rfl (by norm_num)

/-- C8: when `add_game` is called with two distinct names both absent from
the store (of an engine with the default starting rating 1000), both players
are first created with rating exactly 1000 and games_played exactly 0, and
the outcome is then computed from the 1000/1000 starting point. -/
theorem C8_auto_registration (e : Elo) (a b : String) (d : Bool)
    (hab : a ≠ b) (ha : e.players.get a = none) (hb : e.players.get b = none)
    (hstart : e.starting_elo = 1000) :
    ((e.try_add a).try_add b).players.get a = some ⟨a, 1000, 0⟩ ∧
    ((e.try_add a).try_add b).players.get b = some ⟨b, 1000, 0⟩ ∧
    (e.add_game a b d).1 = Except.ok () ∧
    (e.add_game a b d).2.players.get a =
      some ⟨a, (roundRust (winnerNewRating 1000 1000 d)).toNat, 1⟩ ∧
    (e.add_game a b d).2.players.get b =
      some ⟨b, (roundRust (loserNewRating 1000 1000 d)).toNat, 1⟩ := by
  have hA : ((e.try_add a).try_add b).players.get a = some ⟨a, 1000, 0⟩ := by
    rw [Elo.try_add_get_other (e.try_add a) b a hab, Elo.try_add_absent e a ha,
      Store.get_insertAt, if_pos rfl, hstart]
  have hgb : (e.try_add a).players.get b = none := by
    rw [Elo.try_add_absent e a ha, Store.get_insertAt, if_neg (Ne.symm hab)]
    exact hb
  have hB : ((e.try_add a).try_add b).players.get b = some ⟨b, 1000, 0⟩ := by
    rw [Elo.try_add_absent (e.try_add a) b hgb, Store.get_insertAt, if_pos rfl,
      Elo.try_add_starting, hstart]
  have hvia := Elo.add_game_via e a b d hab
  have hg := Elo.add_game_get _ a b d ⟨a, 1000, 0⟩ ⟨b, 1000, 0⟩ hab hA hB
  have hok := Elo.add_game_ok _ a b d ⟨a, 1000, 0⟩ ⟨b, 1000, 0⟩ hab hA hB
  refine ⟨hA, hB, ?_, ?_, ?_⟩
  · rw [hvia]
    exact hok
  · rw [hvia, hg a, if_neg hab, if_pos rfl]
  · rw [hvia, hg b, if_pos rfl]

/-- Witness for C8: a draw between two never-seen names on the empty store. -/
theorem C8_auto_registration_witness :
    (((Elo.new Store.empty).try_add "a").try_add "b").players.get "a" = some ⟨"a", 1000, 0⟩ ∧
    (((Elo.new Store.empty).try_add "a").try_add "b").players.get "b" = some ⟨"b", 1000, 0⟩ ∧
    ((Elo.new Store.empty).add_game "a" "b" true).1 = Except.ok () ∧
    ((Elo.new Store.empty).add_game "a" "b" true).2.players.get "a" =
      some ⟨"a", (roundRust (winnerNewRating 1000 1000 true)).toNat, 1⟩ ∧
    ((Elo.new Store.empty).add_game "a" "b" true).2.players.get "b" =
      some ⟨"b", (roundRust (loserNewRating 1000 1000 true)).toNat, 1⟩ :=
  C8_auto_registration (Elo.new Store.empty) "a" "b" true (by decide) rfl rfl rfl

theorem winnerNewRating_1000_1000 : winnerNewRating 1000 1000 false = 1016 := by
  unfold winnerNewRating factor
  rw [expectedScore_same]
  norm_num

theorem loserNewRating_1000_1000 : loserNewRating 1000 1000 false = 984 := by
  unfold loserNewRating factor
  rw [expectedScore_same]
  norm_num

theorem toNat_roundRust_lit (x : ℝ) (n : ℕ) (h : x = (n : ℝ)) :
    (roundRust x).toNat = n := by
  rw [h, roundRust_natCast]
  exact Int.toNat_natCast n

/-- Rational bounds on `10 ^ (32/400)`, the growth factor of a 32-point
rating gap: both bounds follow from comparing 25th powers with 100. -/
theorem rpow_two_25_bounds :
    33 / 31 < (10 : ℝ) ^ ((2 : ℝ) / 25) ∧ (10 : ℝ) ^ ((2 : ℝ) / 25) < 35 / 29 := by
  have ht0 : (0 : ℝ) < (10 : ℝ) ^ ((2 : ℝ) / 25) :=
    Real.rpow_pos_of_pos (by norm_num) _
  have htpow : ((10 : ℝ) ^ ((2 : ℝ) / 25)) ^ (25 : ℕ) = 100 := by
    rw [← Real.rpow_natCast ((10 : ℝ) ^ ((2 : ℝ) / 25)) 25,
      ← Real.rpow_mul (by norm_num : (0 : ℝ) ≤ 10),
      show (2 : ℝ) / 25 * ((25 : ℕ) : ℝ) = ((2 : ℕ) : ℝ) by norm_num,
      Real.rpow_natCast]
    norm_num
  constructor
  · by_contra hc
    push_neg at hc
    have hle : ((10 : ℝ) ^ ((2 : ℝ) / 25)) ^ (25 : ℕ) ≤ (33 / 31 : ℝ) ^ (25 : ℕ) :=
      pow_le_pow_left ht0.le hc 25
    rw [htpow] at hle
    norm_num at hle
  · by_contra hc
    push_neg at hc
    have hle : (35 / 29 : ℝ) ^ (25 : ℕ) ≤ ((10 : ℝ) ^ ((2 : ℝ) / 25)) ^ (25 : ℕ) :=
      pow_le_pow_left (by norm_num) hc 25
    rw [htpow] at hle
    norm_num at hle

theorem game2_core (t : ℝ) (hlb : 33 / 31 < t) (hub : t < 35 / 29) :
    roundRust (984 + 32 * (1 - 1 / (1 + t))) = 1001 ∧
    roundRust (1016 - 32 * (1 - 1 / (1 + t))) = 999 := by
  have ht0 : (0 : ℝ) < t := lt_trans (by norm_num) hlb
  have h1t : (0 : ℝ) < 1 + t := by linarith
  have hfrac : (1 : ℝ) - 1 / (1 + t) = t / (1 + t) := by
    field_simp
  have hG1 : (33 : ℝ) / 2 < 32 * (1 - 1 / (1 + t)) := by
    rw [hfrac, ← mul_div_assoc, lt_div_iff h1t]
    linarith
  have hG2 : 32 * (1 - 1 / (1 + t)) < (35 : ℝ) / 2 := by
    rw [hfrac, ← mul_div_assoc, div_lt_iff h1t]
    linarith
  constructor
  · refine roundRust_eq _ 1001 (by linarith) ?_ ?_
    · push_cast
      linarith
    · push_cast
      linarith
  · refine roundRust_eq _ 999 (by linarith) ?_ ?_
    · push_cast
      linarith
    · push_cast
      linarith

theorem expectedScore_984_1016 :
    expectedScore 984 1016 = 1 / (1 + (10 : ℝ) ^ ((2 : ℝ) / 25)) := by
  unfold expectedScore
  rw [show ((((1016 : Nat) : ℤ) - ((984 : Nat) : ℤ) : ℤ) : ℝ) / 400 = (2 : ℝ) / 25 by
    norm_num]

theorem winnerNewRating_984_1016 :
    winnerNewRating 984 1016 false =
      984 + 32 * (1 - 1 / (1 + (10 : ℝ) ^ ((2 : ℝ) / 25))) := by
  unfold winnerNewRating factor
  rw [expectedScore_984_1016]
  norm_num

theorem loserNewRating_984_1016 :
    loserNewRating 984 1016 false =
      1016 - 32 * (1 - 1 / (1 + (10 : ℝ) ^ ((2 : ℝ) / 25))) := by
  unfold loserNewRating factor
  have hsum := expectedScore_add 1016 984
  rw [expectedScore_984_1016] at hsum
  have h1016 : expectedScore 1016 984 = 1 - 1 / (1 + (10 : ℝ) ^ ((2 : ℝ) / 25)) := by
    linarith
  rw [h1016]
  push_cast
  ring

/-- C6: from the empty store, a decisive a-beats-b followed by a decisive
b-beats-a ends with a rated 999, b rated 1001, and both games counters 2. -/
theorem C6_end_to_end :
    ratingOf ((((Elo.new Store.empty).add_game "a" "b" false).2).add_game "b" "a" false).2 "a"
      = 999 ∧
    ratingOf ((((Elo.new Store.empty).add_game "a" "b" false).2).add_game "b" "a" false).2 "b"
      = 1001 ∧
    gamesOf ((((Elo.new Store.empty).add_game "a" "b" false).2).add_game "b" "a" false).2 "a"
      = 2 ∧
    gamesOf ((((Elo.new Store.empty).add_game "a" "b" false).2).add_game "b" "a" false).2 "b"
      = 2 := by
  have hab : ("a" : String) ≠ "b" := by decide
  have hba : ("b" : String) ≠ "a" := by decide
  have h1 : (((Elo.new Store.empty).try_add "a").try_add "b").players.get "a"
      = some ⟨"a", 1000, 0⟩ := rfl
  have h2 : (((Elo.new Store.empty).try_add "a").try_add "b").players.get "b"
      = some ⟨"b", 1000, 0⟩ := rfl
  have hvia := Elo.add_game_via (Elo.new Store.empty) "a" "b" false hab
  have hg1 := Elo.add_game_get _ "a" "b" false ⟨"a", 1000, 0⟩ ⟨"b", 1000, 0⟩ hab h1 h2
  have hw1 : (roundRust (winnerNewRating 1000 1000 false)).toNat = 1016 :=
    toNat_roundRust_lit _ 1016 (by rw [winnerNewRating_1000_1000]; norm_num)
  have hl1 : (roundRust (loserNewRating 1000 1000 false)).toNat = 984 :=
    toNat_roundRust_lit _ 984 (by rw [loserNewRating_1000_1000]; norm_num)
  have e1a : ((Elo.new Store.empty).add_game "a" "b" false).2.players.get "a"
      = some ⟨"a", 1016, 1⟩ := by
    rw [hvia, hg1 "a", if_neg hab, if_pos rfl, hw1]
  have e1b : ((Elo.new Store.empty).add_game "a" "b" false).2.players.get "b"
      = some ⟨"b", 984, 1⟩ := by
    rw [hvia, hg1 "b", if_pos rfl, hl1]
  obtain ⟨htl, hth⟩ := rpow_two_25_bounds
  obtain ⟨hr2w, hr2l⟩ := game2_core ((10 : ℝ) ^ ((2 : ℝ) / 25)) htl hth
  have hw2 : (roundRust (winnerNewRating 984 1016 false)).toNat = 1001 := by
    rw [winnerNewRating_984_1016, hr2w]
    rfl
  have hl2 : (roundRust (loserNewRating 984 1016 false)).toNat = 999 := by
    rw [loserNewRating_984_1016, hr2l]
    rfl
  have hg2 := Elo.add_game_get _ "b" "a" false ⟨"b", 984, 1⟩ ⟨"a", 1016, 1⟩ hba e1b e1a
  refine ⟨?_, ?_, ?_, ?_⟩
  · rw [ratingOf, hg2 "a", if_pos rfl, hl2]
    rfl
  · rw [ratingOf, hg2 "b", if_neg hba, if_pos rfl, hw2]
    rfl
  · rw [gamesOf, hg2 "a", if_pos rfl]
    rfl
  · rw [gamesOf, hg2 "b", if_neg hba, if_pos rfl]
    rfl

theorem gamesOf_try_add_le (e : Elo) (m n : String) :
    gamesOf e n ≤ gamesOf (e.try_add m) n := by
  cases hg : e.players.get m with
  | some p => rw [Elo.try_add_present e m p hg]
  | none =>
      rw [Elo.try_add_absent e m hg]
      by_cases hnm : n = m
      · subst hnm
        have hgp : e.players n = none := hg
        simp [gamesOf, Store.get, Store.insertAt, hgp]
      · simp [gamesOf, Store.get, Store.insertAt, hnm]

theorem gamesOf_add_game_le (e : Elo) (a b : String) (d : Bool) (n : String) :
    gamesOf e n ≤ gamesOf (e.add_game a b d).2 n := by
  by_cases hab : a = b
  · subst hab
    unfold Elo.add_game
    rw [if_pos rfl]
  · obtain ⟨pb, hpb⟩ := Elo.try_add_get_isSome (e.try_add a) b
    obtain ⟨pa0, hpa0⟩ := Elo.try_add_get_isSome e a
    have hpa : ((e.try_add a).try_add b).players.get a = some pa0 := by
      rw [Elo.try_add_get_other _ b a hab]
      exact hpa0
    have step1 : gamesOf e n ≤ gamesOf ((e.try_add a).try_add b) n :=
      le_trans (gamesOf_try_add_le e a n) (gamesOf_try_add_le (e.try_add a) b n)
    have hg := Elo.add_game_get ((e.try_add a).try_add b) a b d pa0 pb hab hpa hpb
    rw [Elo.add_game_via e a b d hab]
    refine le_trans step1 ?_
    unfold gamesOf
    rw [hg n]
    split_ifs with h1 h2
    · subst h1
      simp [hpb]
    · subst h2
      simp [hpa]
    · exact le_rfl

theorem gamesOf_step_le (e : Elo) (op : Op) (n : String) :
    gamesOf e n ≤ gamesOf (Op.step e op) n := by
  cases op with
  | tryAdd m => exact gamesOf_try_add_le e m n
  | addGame a b d => exact gamesOf_add_game_le e a b d n
  | getPlayer m => exact le_rfl

/-- C3 amended: under every sequence of the public operations `try_add`,
`add_game` and `get_player`, no player's games counter ever decreases.
(The remaining public operation `add_player` overwrites an existing record
with a fresh one whose counter is 0, so it is excluded — see the
counterexample.) -/
theorem C3_games_never_decrease (ops : List Op) (e : Elo) (n : String) :
    gamesOf e n ≤ gamesOf (runOps e ops) n := by
  induction ops generalizing e with
  | nil => exact le_rfl
  | cons op rest ih => exact le_trans (gamesOf_step_le e op n) (ih (Op.step e op))

/-- C3 counterexample: after one game, player a has games counter 1; calling
the public `add_player "a"` again overwrites the record and the counter
drops back to 0 — it is not monotone over all public operations. -/
theorem C3_counterexample :
    gamesOf ((Elo.new Store.empty).add_game "a" "b" false).2 "a" = 1 ∧
    gamesOf (((Elo.new Store.empty).add_game "a" "b" false).2.add_player "a") "a" = 0 := by
  have hab : ("a" : String) ≠ "b" := by decide
  have h1 : (((Elo.new Store.empty).try_add "a").try_add "b").players.get "a"
      = some ⟨"a", 1000, 0⟩ := rfl
  have h2 : (((Elo.new Store.empty).try_add "a").try_add "b").players.get "b"
      = some ⟨"b", 1000, 0⟩ := rfl
  have hvia := Elo.add_game_via (Elo.new Store.empty) "a" "b" false hab
  have hg1 := Elo.add_game_get _ "a" "b" false ⟨"a", 1000, 0⟩ ⟨"b", 1000, 0⟩ hab h1 h2
  constructor
  · rw [gamesOf, hvia, hg1 "a", if_neg hab, if_pos rfl]
    rfl
  · simp [gamesOf, Elo.add_player, Store.add_player, Store.insertAt, Store.get]

theorem cmpOf_self {α : Type} [LinearOrder α] (a : α) : cmpOf a a = Ordering.eq := by
  unfold cmpOf
  simp

theorem cmpOf_lt_iff {α : Type} [LinearOrder α] (a b : α) :
    cmpOf a b = Ordering.lt ↔ a < b := by
  unfold cmpOf
  rcases lt_trichotomy a b with h | h | h
  · simp [h]
  · subst h
    simp
  · simp [h, lt_asymm h]

theorem cmpOf_gt_iff {α : Type} [LinearOrder α] (a b : α) :
    cmpOf a b = Ordering.gt ↔ b < a := by
  unfold cmpOf
  rcases lt_trichotomy a b with h | h | h
  · simp [h, lt_asymm h]
  · subst h
    simp
  · simp [h, lt_asymm h]

theorem cmpOf_eq_iff {α : Type} [LinearOrder α] (a b : α) :
    cmpOf a b = Ordering.eq ↔ a = b := by
  unfold cmpOf
  rcases lt_trichotomy a b with h | h | h
  · simp [h, h.ne]
  · subst h
    simp
  · simp [h, lt_asymm h, h.ne']

theorem cmpOf_swap {α : Type} [LinearOrder α] (a b : α) :
    (cmpOf a b).swap = cmpOf b a := by
  unfold cmpOf
  rcases lt_trichotomy a b with h | h | h
  · simp only [if_pos h, if_neg (lt_asymm h)]
    rfl
  · subst h
    simp only [lt_self_iff_false, if_false]
    rfl
  · simp only [if_pos h, if_neg (lt_asymm h)]
    rfl

theorem Player.cmp_rating_lt (p q : Player) (h : p.rating < q.rating) :
    Player.cmp p q = Ordering.gt := by
  have hc : cmpOf p.rating q.rating = Ordering.lt := (cmpOf_lt_iff _ _).mpr h
  unfold Player.cmp
  rw [hc]
  rfl

theorem Player.cmp_rating_gt (p q : Player) (h : q.rating < p.rating) :
    Player.cmp p q = Ordering.lt := by
  have hc : cmpOf p.rating q.rating = Ordering.gt := (cmpOf_gt_iff _ _).mpr h
  unfold Player.cmp
  rw [hc]
  rfl

theorem Player.cmp_games_lt (p q : Player) (hr : p.rating = q.rating)
    (h : p.number_of_games < q.number_of_games) : Player.cmp p q = Ordering.gt := by
  have hc1 : cmpOf p.rating q.rating = Ordering.eq := (cmpOf_eq_iff _ _).mpr hr
  have hc2 : cmpOf p.number_of_games q.number_of_games = Ordering.lt :=
    (cmpOf_lt_iff _ _).mpr h
  unfold Player.cmp
  rw [hc1, hc2]
  rfl

theorem Player.cmp_games_gt (p q : Player) (hr : p.rating = q.rating)
    (h : q.number_of_games < p.number_of_games) : Player.cmp p q = Ordering.lt := by
  have hc1 : cmpOf p.rating q.rating = Ordering.eq := (cmpOf_eq_iff _ _).mpr hr
  have hc2 : cmpOf p.number_of_games q.number_of_games = Ordering.gt :=
    (cmpOf_gt_iff _ _).mpr h
  unfold Player.cmp
  rw [hc1, hc2]
  rfl

theorem Player.cmp_names (p q : Player) (hr : p.rating = q.rating)
    (hg : p.number_of_games = q.number_of_games) :
    Player.cmp p q = cmpOf p.name q.name := by
  have hc1 : cmpOf p.rating q.rating = Ordering.eq := (cmpOf_eq_iff _ _).mpr hr
  have hc2 : cmpOf p.number_of_games q.number_of_games = Ordering.eq :=
    (cmpOf_eq_iff _ _).mpr hg
  unfold Player.cmp
  rw [hc1, hc2]
  rfl

theorem Player.cmp_lt_iff (p q : Player) :
    Player.cmp p q = Ordering.lt ↔
      (q.rating < p.rating ∨
       (q.rating = p.rating ∧ q.number_of_games < p.number_of_games) ∨
       (q.rating = p.rating ∧ q.number_of_games = p.number_of_games ∧
         p.name < q.name)) := by
  rcases lt_trichotomy p.rating q.rating with h | h | h
  · rw [Player.cmp_rating_lt p q h]
    simp only [reduceCtorEq, false_iff]
    rintro (h1 | ⟨h1, h2⟩ | ⟨h1, h2, h3⟩) <;> omega
  · rcases lt_trichotomy p.number_of_games q.number_of_games with hg | hg | hg
    · rw [Player.cmp_games_lt p q h hg]
      simp only [reduceCtorEq, false_iff]
      rintro (h1 | ⟨h1, h2⟩ | ⟨h1, h2, h3⟩) <;> omega
    · rw [Player.cmp_names p q h hg, cmpOf_lt_iff]
      constructor
      · intro hn
        exact Or.inr (Or.inr ⟨h.symm, hg.symm, hn⟩)
      · rintro (h1 | ⟨h1, h2⟩ | ⟨h1, h2, h3⟩)
        · omega
        · omega
        · exact h3
    · rw [Player.cmp_games_gt p q h hg]
      simp only [true_iff]
      exact Or.inr (Or.inl ⟨h.symm, hg⟩)
  · rw [Player.cmp_rating_gt p q h]
    simp only [true_iff]
    exact Or.inl h

theorem Player.cmp_eq_iff (p q : Player) :
    Player.cmp p q = Ordering.eq ↔ p = q := by
  rcases lt_trichotomy p.rating q.rating with h | h | h
  · rw [Player.cmp_rating_lt p q h]
    simp only [reduceCtorEq, false_iff]
    rintro rfl
    omega
  · rcases lt_trichotomy p.number_of_games q.number_of_games with hg | hg | hg
    · rw [Player.cmp_games_lt p q h hg]
      simp only [reduceCtorEq, false_iff]
      rintro rfl
      omega
    · rw [Player.cmp_names p q h hg, cmpOf_eq_iff]
      constructor
      · intro hn
        cases p
        cases q
        simp_all
      · rintro rfl
        rfl
    · rw [Player.cmp_games_gt p q h hg]
      simp only [reduceCtorEq, false_iff]
      rintro rfl
      omega
  · rw [Player.cmp_rating_gt p q h]
    simp only [reduceCtorEq, false_iff]
    rintro rfl
    omega

theorem Player.cmp_self_eq (p : Player) : Player.cmp p p = Ordering.eq := by
  rw [Player.cmp_names p p rfl rfl, cmpOf_self]

theorem Player.cmp_swap_eq (p q : Player) :
    Player.cmp q p = (Player.cmp p q).swap := by
  rcases lt_trichotomy p.rating q.rating with h | h | h
  · rw [Player.cmp_rating_lt p q h, Player.cmp_rating_gt q p h]
    rfl
  · rcases lt_trichotomy p.number_of_games q.number_of_games with hg | hg | hg
    · rw [Player.cmp_games_lt p q h hg, Player.cmp_games_gt q p h.symm hg]
      rfl
    · rw [Player.cmp_names p q h hg, Player.cmp_names q p h.symm hg.symm, cmpOf_swap]
    · rw [Player.cmp_games_gt p q h hg, Player.cmp_games_lt q p h.symm hg]
      rfl
  · rw [Player.cmp_rating_gt p q h, Player.cmp_rating_lt q p h]
    rfl

theorem Player.cmp_trans (p q r : Player)
    (h1 : Player.cmp p q = Ordering.lt) (h2 : Player.cmp q r = Ordering.lt) :
    Player.cmp p r = Ordering.lt := by
  rw [Player.cmp_lt_iff] at h1 h2 ⊢
  rcases h1 with ha | ⟨ha1, ha2⟩ | ⟨ha1, ha2, ha3⟩ <;>
    rcases h2 with hb | ⟨hb1, hb2⟩ | ⟨hb1, hb2, hb3⟩ <;>
    first
      | exact Or.inl (by omega)
      | exact Or.inr (Or.inl ⟨by omega, by omega⟩)
      | exact Or.inr (Or.inr ⟨by omega, by omega, lt_trans ha3 hb3⟩)

/-- C5: the Player comparison orders by rating descending, then games
descending, then name ascending; it is reflexive, antisymmetric and
transitive, and two distinct players (in particular two players with
distinct names) never compare equal, so it is a total order. -/
theorem C5_total_order :
    (∀ p q : Player, Player.cmp p q = Ordering.lt ↔
      (q.rating < p.rating ∨
       (q.rating = p.rating ∧ q.number_of_games < p.number_of_games) ∨
       (q.rating = p.rating ∧ q.number_of_games = p.number_of_games ∧
         p.name < q.name))) ∧
    (∀ p : Player, Player.cmp p p = Ordering.eq) ∧
    (∀ p q : Player, Player.cmp p q = Ordering.eq → p = q) ∧
    (∀ p q r : Player, Player.cmp p q = Ordering.lt → Player.cmp q r = Ordering.lt →
      Player.cmp p r = Ordering.lt) ∧
    (∀ p q : Player, Player.cmp q p = (Player.cmp p q).swap) ∧
    (∀ p q : Player, p ≠ q → Player.cmp p q ≠ Ordering.eq) :=
  ⟨Player.cmp_lt_iff, Player.cmp_self_eq,
   fun p q h => (Player.cmp_eq_iff p q).mp h,
   Player.cmp_trans, Player.cmp_swap_eq,
   fun p q hne h => hne ((Player.cmp_eq_iff p q).mp h)⟩

theorem update_rating_eq (p1 p2 : Player) (d : Bool) :
    update_rating p1 p2 d =
      ((roundRust (winnerNewRating p1.rating p2.rating d)).toNat,
       (roundRust (loserNewRating p1.rating p2.rating d)).toNat) := by
  unfold update_rating winnerNewRating loserNewRating factor expectedScore
  cases d <;> norm_num

/-- `AsyncElo::add_game` on a state where both (distinct) players are
present: the two copies are fetched, updated and written back by name. -/
theorem AsyncElo.async_game_eq (e : Elo) (a b : String) (d : Bool) (pa pb : Player)
    (hab : a ≠ b) (ha : e.players.get a = some pa) (hb : e.players.get b = some pb) :
    AsyncElo.add_game e a b d = (Except.ok (), Elo.mk (fun n =>
      if n = pb.name then
        some ⟨pb.name, (update_rating pa pb d).2, pb.number_of_games + 1⟩
      else if n = pa.name then
        some ⟨pa.name, (update_rating pa pb d).1, pa.number_of_games + 1⟩
      else e.players.get n) e.starting_elo) := by
  have h1 : e.try_add a = e := Elo.try_add_present e a pa ha
  have h2 : e.try_add b = e := Elo.try_add_present e b pb hb
  simp only [AsyncElo.add_game, if_neg hab, h1, h2, ha, hb]
  rfl

theorem AsyncElo.async_game_via (e : Elo) (a b : String) (d : Bool) (hab : a ≠ b) :
    AsyncElo.add_game e a b d = AsyncElo.add_game ((e.try_add a).try_add b) a b d := by
  obtain ⟨pb, hpb⟩ := Elo.try_add_get_isSome (e.try_add a) b
  obtain ⟨pa0, hpa0⟩ := Elo.try_add_get_isSome e a
  have hpa : ((e.try_add a).try_add b).players.get a = some pa0 := by
    rw [Elo.try_add_get_other _ b a hab]
    exact hpa0
  have h1 : ((e.try_add a).try_add b).try_add a = (e.try_add a).try_add b :=
    Elo.try_add_present _ a pa0 hpa
  have h2 : ((e.try_add a).try_add b).try_add b = (e.try_add a).try_add b :=
    Elo.try_add_present _ b pb hpb
  unfold AsyncElo.add_game
  rw [if_neg hab, if_neg hab, h1, h2]

/-- `try_add` preserves the store invariant that every record is keyed by
its own name. -/
theorem Elo.try_add_wf (e : Elo) (m : String)
    (hwf : ∀ n p, e.players.get n = some p → p.name = n) :
    ∀ n p, (e.try_add m).players.get n = some p → p.name = n := by
  intro n p h
  cases hg : e.players.get m with
  | some q =>
      rw [Elo.try_add_present e m q hg] at h
      exact hwf n p h
  | none =>
      rw [Elo.try_add_absent e m hg, Store.get_insertAt] at h
      by_cases hnm : n = m
      · rw [if_pos hnm] at h
        injection h with h'
        rw [← h']
        exact hnm.symm
      · rw [if_neg hnm] at h
        exact hwf n p h

/-- C10 amended: on every store in which each record is keyed by its own
name (an invariant of every store the API itself builds), the synchronous
borrow-returning `Elo::add_game` and the asynchronous copy-returning
`AsyncElo::add_game` (run without interleaving) return the same result and
the same final store, for every pair of names and every outcome. -/
theorem C10_sync_async_equiv (e : Elo) (a b : String) (d : Bool)
    (hwf : ∀ n p, e.players.get n = some p → p.name = n) :
    Elo.add_game e a b d = AsyncElo.add_game e a b d := by
  by_cases hab : a = b
  · subst hab
    unfold Elo.add_game AsyncElo.add_game
    rw [if_pos rfl, if_pos rfl]
  · obtain ⟨pb, hpb⟩ := Elo.try_add_get_isSome (e.try_add a) b
    obtain ⟨pa0, hpa0⟩ := Elo.try_add_get_isSome e a
    have hpa : ((e.try_add a).try_add b).players.get a = some pa0 := by
      rw [Elo.try_add_get_other _ b a hab]
      exact hpa0
    have hwf1 : ∀ n p, ((e.try_add a).try_add b).players.get n = some p → p.name = n :=
      Elo.try_add_wf _ b (Elo.try_add_wf e a hwf)
    have hna : pa0.name = a := hwf1 a pa0 hpa
    have hnb : pb.name = b := hwf1 b pb hpb
    rw [Elo.add_game_via e a b d hab, AsyncElo.async_game_via e a b d hab,
      Elo.add_game_eq _ a b d pa0 pb hab hpa hpb,
      AsyncElo.async_game_eq _ a b d pa0 pb hab hpa hpb,
      update_rating_eq, hna, hnb]

/-- Witness for C10 amended: the empty store is well formed. -/
theorem C10_sync_async_equiv_witness :
    Elo.add_game (Elo.new Store.empty) "a" "b" false =
      AsyncElo.add_game (Elo.new Store.empty) "a" "b" false :=
  C10_sync_async_equiv (Elo.new Store.empty) "a" "b" false
    (fun n p h => by simp [Elo.new, Store.get, Store.empty] at h)

/-- A state whose record under key "x" carries a different name "z"
(constructible in Rust by seeding the HashMap passed to `Elo::new`). -/
def eloC10 : Elo :=
  Elo.mk (fun n => if n = "x" then some ⟨"z", 1000, 0⟩
    else if n = "y" then some ⟨"y", 1000, 0⟩ else none) 1000

/-- C10 counterexample: on a store whose record under key "x" is named "z",
the synchronous variant updates in place under key "x" while the
asynchronous variant writes back under the record name "z" — the stored
record for player "x" differs between the two variants afterwards. -/
theorem C10_counterexample :
    Elo.get_player (Elo.add_game eloC10 "x" "y" true).2 "x" ≠
      Elo.get_player (AsyncElo.add_game eloC10 "x" "y" true).2 "x" := by
  have hx : eloC10.players.get "x" = some ⟨"z", 1000, 0⟩ := rfl
  have hy : eloC10.players.get "y" = some ⟨"y", 1000, 0⟩ := rfl
  have hxy : ("x" : String) ≠ "y" := by decide
  have hs := Elo.add_game_get eloC10 "x" "y" true ⟨"z", 1000, 0⟩ ⟨"y", 1000, 0⟩ hxy hx hy
  have ha := AsyncElo.async_game_eq eloC10 "x" "y" true ⟨"z", 1000, 0⟩ ⟨"y", 1000, 0⟩ hxy hx hy
  have h1 : Elo.get_player (Elo.add_game eloC10 "x" "y" true).2 "x" =
      some ⟨"z", (roundRust (winnerNewRating 1000 1000 true)).toNat, 1⟩ := by
    rw [Elo.get_player, hs "x", if_neg (by decide), if_pos rfl]
  have h2 : Elo.get_player (AsyncElo.add_game eloC10 "x" "y" true).2 "x" =
      some ⟨"z", 1000, 0⟩ := by
    rw [Elo.get_player, ha]
    rfl
  rw [h1, h2]
  intro hcontr
  injection hcontr with hcontr'
  have hgames : (1 : ℕ) = 0 := congrArg Player.number_of_games hcontr'
  exact absurd hgames (by decide)
